import Mathlib

/-!
Verification of the one-time-pad client/server pair (`enc_server.c`,
`dec_client.c`, `keygen.c`) against its natural-language specification.

Bytes are modelled as `Int` (the value of the C `char` after the usual
promotions), texts and keys as `List Int`.  C's `%` on `int` truncates
toward zero, which is `Int.tmod`.
-/

namespace OTP

/-- `#define BUFFER_SIZE 1000` (both `enc_server.c` and `dec_client.c`). -/
def BUFFER_SIZE : ℕ := 1000

/-- Membership in the 27-symbol alphabet: uppercase letters `'A'`–`'Z'`
(byte values 65–90) or space (byte value 32). -/
def isAlphaByte (b : Int) : Prop := (65 ≤ b ∧ b ≤ 90) ∨ b = 32

instance (b : Int) : Decidable (isAlphaByte b) := by
  unfold isAlphaByte; infer_instance

/-- `enc_server.c` lines 170–171: `c == ' ' ? 26 : c - 'A'`. -/
def rankOf (b : Int) : Int := if b = 32 then 26 else b - 65

/-- `enc_server.c` line 173: `encVal == 26 ? ' ' : encVal + 'A'`. -/
def byteOfRank (e : Int) : Int := if e = 26 then 32 else e + 65

/-- Body of the encryption loop, `enc_server.c` lines 170–173:
`encVal = (txtVal + keyVal) % 27` with C's truncating `%`. -/
def encByte (t k : Int) : Int := byteOfRank (Int.tmod (rankOf t + rankOf k) 27)

/-- Modelled from the spec: `dec_server.c` is not among the repository's
source files (only `enc_server.c` and `dec_client.c` are), so the
decryption direction follows spec §4.1: `result_rank = (t - k + 27) mod 27`,
with ranks and the symbol maps shared with the encryption side. -/
def decByte (t k : Int) : Int := byteOfRank (Int.tmod (rankOf t - rankOf k + 27) 27)

/-- Direction flag of the cipher transform (spec §4.1). -/
inductive Dir
  | encrypt
  | decrypt
deriving DecidableEq

def transformByte : Dir → Int → Int → Int
  | .encrypt, t, k => encByte t k
  | .decrypt, t, k => decByte t k

/-- The loop of `handleOtpComm` (`enc_server.c` lines 169–174): for every
`i < strlen(text)` it reads `text[i]` and `key[i]` and stores the
transformed byte, with no bounds or alphabet check on either operand.
`keyMem i` is the byte located at address `key + i`. -/
def handleOtpLoop (text : List Int) (keyMem : ℕ → Int) (d : Dir) : List Int :=
  (List.range text.length).map fun i => transformByte d (text.getD i 0) (keyMem i)

/-- The memory holding a C string: the characters of `key`, then the NUL
terminator, then unspecified bytes `junk` beyond the end of the allocation
of `strlen(key) + 1` bytes made by `receive`. -/
def cStrMem (key : List Int) (junk : ℕ → Int) : ℕ → Int := fun i =>
  if i < key.length then key.getD i 0
  else if i = key.length then 0
  else junk (i - key.length - 1)

/-- The cipher transform on well-formed inputs: the `handleOtpComm` loop
run over the memory image of the key string. -/
def transform (text key : List Int) (d : Dir) : List Int :=
  handleOtpLoop text (cStrMem key fun _ => 0) d

/-- Byte values of a string literal, for concrete test vectors. -/
def bytes (s : String) : List Int := s.toList.map fun c => (c.toNat : Int)

/-! ### Byte-level lemmas -/

theorem rankOf_bounds {b : Int} (h : isAlphaByte b) :
    0 ≤ rankOf b ∧ rankOf b ≤ 26 := by
  rcases h with ⟨h1, h2⟩ | h3 <;> simp [rankOf] <;> omega

theorem byteOfRank_alpha {e : Int} (h0 : 0 ≤ e) (h1 : e ≤ 26) :
    isAlphaByte (byteOfRank e) := by
  unfold byteOfRank isAlphaByte
  split <;> omega

theorem rankOf_byteOfRank {e : Int} (h0 : 0 ≤ e) (h1 : e ≤ 26) :
    rankOf (byteOfRank e) = e := by
  unfold byteOfRank rankOf
  split <;> split <;> omega

theorem byteOfRank_rankOf {b : Int} (h : isAlphaByte b) :
    byteOfRank (rankOf b) = b := by
  rcases h with ⟨h1, h2⟩ | h3 <;> unfold rankOf byteOfRank <;> split <;> split <;> omega

theorem encByte_rank {t k : Int} (ht : isAlphaByte t) (hk : isAlphaByte k) :
    rankOf (encByte t k) = (rankOf t + rankOf k) % 27 := by
  obtain ⟨ht0, ht1⟩ := rankOf_bounds ht
  obtain ⟨hk0, hk1⟩ := rankOf_bounds hk
  unfold encByte
  rw [Int.tmod_eq_emod (by omega) (by omega)]
  have h0 : 0 ≤ (rankOf t + rankOf k) % 27 := Int.emod_nonneg _ (by omega)
  have h1 : (rankOf t + rankOf k) % 27 < 27 := Int.emod_lt_of_pos _ (by omega)
  exact rankOf_byteOfRank h0 (by omega)

theorem encByte_alpha {t k : Int} (ht : isAlphaByte t) (hk : isAlphaByte k) :
    isAlphaByte (encByte t k) := by
  obtain ⟨ht0, ht1⟩ := rankOf_bounds ht
  obtain ⟨hk0, hk1⟩ := rankOf_bounds hk
  unfold encByte
  rw [Int.tmod_eq_emod (by omega) (by omega)]
  have h0 : 0 ≤ (rankOf t + rankOf k) % 27 := Int.emod_nonneg _ (by omega)
  have h1 : (rankOf t + rankOf k) % 27 < 27 := Int.emod_lt_of_pos _ (by omega)
  exact byteOfRank_alpha h0 (by omega)

theorem decByte_alpha {t k : Int} (ht : isAlphaByte t) (hk : isAlphaByte k) :
    isAlphaByte (decByte t k) := by
  obtain ⟨ht0, ht1⟩ := rankOf_bounds ht
  obtain ⟨hk0, hk1⟩ := rankOf_bounds hk
  unfold decByte
  rw [Int.tmod_eq_emod (by omega) (by omega)]
  have h0 : 0 ≤ (rankOf t - rankOf k + 27) % 27 := Int.emod_nonneg _ (by omega)
  have h1 : (rankOf t - rankOf k + 27) % 27 < 27 := Int.emod_lt_of_pos _ (by omega)
  exact byteOfRank_alpha h0 (by omega)

/-- One position of the round trip: decrypting with the same key byte
recovers the original byte. -/
theorem decByte_encByte {t k : Int} (ht : isAlphaByte t) (hk : isAlphaByte k) :
    decByte (encByte t k) k = t := by
  obtain ⟨ht0, ht1⟩ := rankOf_bounds ht
  obtain ⟨hk0, hk1⟩ := rankOf_bounds hk
  unfold decByte
  rw [encByte_rank ht hk]
  have h0 : 0 ≤ (rankOf t + rankOf k) % 27 := Int.emod_nonneg _ (by omega)
  have h1 : (rankOf t + rankOf k) % 27 < 27 := Int.emod_lt_of_pos _ (by omega)
  rw [Int.tmod_eq_emod (by omega) (by omega)]
  have key : ((rankOf t + rankOf k) % 27 - rankOf k + 27) % 27 = rankOf t := by omega
  rw [key, byteOfRank_rankOf ht]

/-! ### List-level facts about the transform -/

theorem handleOtpLoop_length (text : List Int) (keyMem : ℕ → Int) (d : Dir) :
    (handleOtpLoop text keyMem d).length = text.length := by
  simp [handleOtpLoop]

theorem handleOtpLoop_getElem (text : List Int) (keyMem : ℕ → Int) (d : Dir)
    {i : ℕ} (h : i < text.length) :
    (handleOtpLoop text keyMem d).get
      ⟨i, by rw [handleOtpLoop_length]; exact h⟩
      = transformByte d (text.getD i 0) (keyMem i) := by
  simp [handleOtpLoop]

theorem cStrMem_lt (key : List Int) (junk : ℕ → Int) {i : ℕ} (h : i < key.length) :
    cStrMem key junk i = key.getD i 0 := by
  simp [cStrMem, h]

theorem transform_length (text key : List Int) (d : Dir) :
    (transform text key d).length = text.length :=
  handleOtpLoop_length ..

theorem handleOtpLoop_getD (text : List Int) (keyMem : ℕ → Int) (d : Dir) {i : ℕ}
    (hi : i < text.length) :
    (handleOtpLoop text keyMem d).getD i 0
      = transformByte d (text.getD i 0) (keyMem i) := by
  have hlen : i < (handleOtpLoop text keyMem d).length := by
    rw [handleOtpLoop_length]; exact hi
  rw [List.getD_eq_getElem _ _ hlen]
  simp only [handleOtpLoop, List.getElem_map, List.getElem_range]

theorem transform_getD (text key : List Int) (d : Dir) {i : ℕ}
    (hi : i < text.length) (hk : i < key.length) :
    (transform text key d).getD i 0
      = transformByte d (text.getD i 0) (key.getD i 0) := by
  unfold transform
  rw [handleOtpLoop_getD text _ d hi, cStrMem_lt key _ hk]

theorem getD_mem {l : List Int} {i : ℕ} (h : i < l.length) : l.getD i 0 ∈ l := by
  rw [List.getD_eq_getElem _ _ h]
  exact List.getElem_mem h

/-- Claim C2: at every position the encryption output rank is
`(t + k) mod 27` over the 0–26 ranking, and encrypting `"HELLO"` under
`"WORLD"` yields exactly `"CSBWR"`. -/
theorem spec_c2_cipher_algorithm :
    (∀ (text key : List Int) (i : ℕ),
      (∀ b ∈ text, isAlphaByte b) → (∀ b ∈ key, isAlphaByte b) →
      text.length ≤ key.length → i < text.length →
      rankOf ((transform text key .encrypt).getD i 0)
        = (rankOf (text.getD i 0) + rankOf (key.getD i 0)) % 27) ∧
    transform (bytes "HELLO") (bytes "WORLD") .encrypt = bytes "CSBWR" := by
  constructor
  · intro text key i ht hk hlen hi
    rw [transform_getD text key .encrypt hi (by omega)]
    exact encByte_rank (ht _ (getD_mem hi)) (hk _ (getD_mem (by omega)))
  · decide

/-- Claim C2 witness: the positional rank formula evaluated at position 0
of the concrete `"HELLO"`/`"WORLD"` scenario. -/
theorem spec_c2_cipher_algorithm_witness :
    rankOf ((transform (bytes "HELLO") (bytes "WORLD") .encrypt).getD 0 0)
      = (rankOf ((bytes "HELLO").getD 0 0) + rankOf ((bytes "WORLD").getD 0 0)) % 27 :=
  spec_c2_cipher_algorithm.1 (bytes "HELLO") (bytes "WORLD") 0
    (by decide) (by decide) (by decide) (by decide)

/-! ### Framed transport (`sendData` / `receive`, identical in both files) -/

/-- Outcome of the `receive` accumulation loop (`enc_server.c` and
`dec_client.c`, lines 112–119): `done i` — the loop exited having
accumulated `i` bytes; `fatal c` — `error(c, ...)` terminated the
process; `pending i` — the supplied stream of `recv` results is exhausted
while `i < len`, so the loop issues yet another `recv`. -/
inductive RecvOutcome
  | done (received : ℕ)
  | fatal (exitCode : ℕ)
  | pending (received : ℕ)
deriving DecidableEq

/-- `receive` line 115: `len - i > BUFFER_SIZE - 1 ? BUFFER_SIZE - 1 : len - i`,
the byte count requested from the next `recv`. -/
def recvRequest (len i : ℕ) : ℕ := min (len - i) (BUFFER_SIZE - 1)

/-- `receive` lines 113–119: the accumulation loop, driven by the list of
values the successive `recv` calls return (`recv` reports at most the
requested count; a negative value is a transport error).  The code checks
only `charsRead < 0`; any non-negative count, zero included, just adds to
`i`. -/
def recvLoop (len i : ℕ) : List Int → RecvOutcome
  | [] => if i < len then .pending i else .done i
  | r :: rs =>
    if i < len then
      if r < 0 then .fatal 1 else recvLoop len (i + r.toNat) rs
    else .done i

/-- `receive` lines 101–123: the length prefix is read first (a negative
`recv` result → `error(1, ...)`), then `malloc(len + 1)` (failure →
`error(1, ...)`), then the accumulation loop runs from `i = 0`. -/
def receive (prefixResult : Int) (len : ℕ) (allocOk : Bool) (rs : List Int) :
    RecvOutcome :=
  if prefixResult < 0 then .fatal 1
  else if !allocOk then .fatal 1
  else recvLoop len 0 rs

/-- Each listed `recv` result delivers at most the byte count the loop
requested of it — true of every real `recv`. -/
def BoundedStream (len : ℕ) : ℕ → List Int → Bool
  | _, [] => true
  | i, r :: rs => decide (r.toNat ≤ recvRequest len i) && BoundedStream len (i + r.toNat) rs

theorem recvLoop_done_exact (len : ℕ) :
    ∀ (rs : List Int) (i : ℕ), i ≤ len → BoundedStream len i rs = true →
      ∀ n, recvLoop len i rs = .done n → n = len := by
  intro rs
  induction rs with
  | nil =>
    intro i hle _ n hdone
    by_cases hi : i < len
    · simp [recvLoop, hi] at hdone
    · simp [recvLoop, hi] at hdone
      omega
  | cons r rs ih =>
    intro i hle hbs n hdone
    by_cases hi : i < len
    · by_cases hr : r < 0
      · simp [recvLoop, hi, hr] at hdone
      · simp only [recvLoop, if_pos hi, if_neg hr] at hdone
        simp only [BoundedStream, Bool.and_eq_true, decide_eq_true_eq] at hbs
        have hreq : recvRequest len i ≤ len - i := Nat.min_le_left _ _
        exact ih (i + r.toNat) (by omega) hbs.2 n hdone
    · simp only [recvLoop, if_neg hi] at hdone
      cases hdone
      omega

/-- Claim C3 (amended): the payload loop requests at most
`BUFFER_SIZE - 1 = 999` bytes per `recv`; a negative `recv` result is
fatal with exit code 1; a `recv` returning zero bytes is NOT an error —
the iteration makes no progress and the loop simply calls `recv` again
(so a prematurely closed peer makes it loop forever); when the loop does
exit, exactly `len` bytes have been accumulated; and a negative result
when reading the length prefix is fatal with exit code 1. -/
theorem spec_c3_receive_loop (len i n : ℕ) (r : Int) (rs : List Int)
    (hi : i < len) (hbound : BoundedStream len 0 rs = true)
    (hdone : recvLoop len 0 rs = .done n) :
    recvRequest len i ≤ BUFFER_SIZE - 1 ∧
    recvLoop len i (r :: rs)
      = (if r < 0 then .fatal 1 else recvLoop len (i + r.toNat) rs) ∧
    recvLoop len i ((0 : Int) :: rs) = recvLoop len i rs ∧
    n = len ∧
    receive r len true rs = (if r < 0 then .fatal 1 else recvLoop len 0 rs) := by
  refine ⟨Nat.min_le_right _ _, by simp [recvLoop, hi], ?_, ?_, ?_⟩
  · simp [recvLoop, hi]
  · exact recvLoop_done_exact len rs 0 (Nat.zero_le _) hbound n hdone
  · simp [receive]

/-- Claim C3 witness: the amended receive-loop properties at `len = 2`
with the stream delivering one byte per `recv` and a probe result of
`-1`. -/
theorem spec_c3_receive_loop_witness :
    recvRequest 2 0 ≤ BUFFER_SIZE - 1 ∧
    recvLoop 2 0 ((-1 : Int) :: [1, 1])
      = (if (-1 : Int) < 0 then .fatal 1 else recvLoop 2 (0 + (-1 : Int).toNat) [1, 1]) ∧
    recvLoop 2 0 ((0 : Int) :: [1, 1]) = recvLoop 2 0 [1, 1] ∧
    2 = 2 ∧
    receive (-1) 2 true [1, 1]
      = (if (-1 : Int) < 0 then .fatal 1 else recvLoop 2 0 [1, 1]) :=
  spec_c3_receive_loop 2 0 2 (-1) [1, 1] (by decide) (by decide) (by decide)

/-- Claim C3 counterexample: a premature close — `recv` returning zero
bytes before `len = 5` is reached — is not treated as a fatal transport
error: three successive zero reads leave the loop with nothing
accumulated and still waiting, not terminated with exit code 1. -/
theorem spec_c3_zero_read_not_fatal :
    recvLoop 5 0 [0, 0, 0] = RecvOutcome.pending 0 ∧
    RecvOutcome.pending 0 ≠ RecvOutcome.fatal 1 := by decide

/-- `sendData` line 85: `remaining < BUFFER_SIZE ? remaining : BUFFER_SIZE`. -/
def sendRequest (len i : ℕ) : ℕ := min (len - i) BUFFER_SIZE

/-- The `sendData` loop (`enc_server.c` and `dec_client.c` lines 82–88):
`charsSent` is assigned the requested chunk size before the `send`, the
`send` return value is compared only against 0, and the loop advances `i`
by `charsSent` — the requested size — regardless of how many bytes `send`
actually accepted.  `actuals` lists the byte counts actually accepted by
the first `send` calls (negative = error); once it is exhausted the
remaining calls are modelled as accepting everything requested, hence
contributing the outstanding `len - i` bytes.  Result: the total number
of payload bytes actually placed on the stream, or `none` when a `send`
failed and `error(1, ...)` terminated the process. -/
def sendLoop (len i : ℕ) : List Int → Option ℕ
  | [] => if i < len then some (len - i) else some 0
  | a :: rest =>
    if i < len then
      if a < 0 then none
      else (sendLoop len (i + sendRequest len i) rest).map (a.toNat + ·)
    else some 0

/-- Claim C4: a `send` that reports fewer bytes written than requested is
not retried — for the one-byte payload `"A"`, a single `send` accepting 0
bytes ends the loop with 0 payload bytes on the stream instead of 1,
while a fully-accepting transport does carry all 1 bytes. -/
theorem spec_c4_partial_write_lost :
    sendLoop 1 0 [0] = some 0 ∧ sendLoop 1 0 [] = some 1 := by decide

/-! ### Protocol handshake -/

/-- `enc_server.c` `validate` (lines 134–152): the server receives the
client's tag, unconditionally sends its own tag back, then
`strcmp(client, server)` — a mismatch closes the socket and calls
`error(2, ...)`.  Parameterized by the server's own tag, `"enc"` in
`enc_server.c`. -/
def validateServer (ownTag clientMsg : String) : Except ℕ Unit :=
  if clientMsg = ownTag then .ok () else .error 2

/-- `dec_client.c` `validate` (lines 134–147): the client sends its own
tag, receives the server's reply, then `strcmp(client, server)` — a
mismatch closes the socket and calls `error(2, ...)`.  Parameterized by
the client's own tag, `"dec"` in `dec_client.c`. -/
def validateClient (ownTag serverMsg : String) : Except ℕ Unit :=
  if serverMsg = ownTag then .ok () else .error 2

/-- The joint handshake: the client sends `clientTag`; the server
receives it and replies `serverTag`; each side compares the received tag
with its own.  `ok` exactly when both sides proceed to the message
exchange. -/
def handshake (serverTag clientTag : String) : Except ℕ Unit :=
  match validateServer serverTag clientTag, validateClient clientTag serverTag with
  | .ok _, .ok _ => .ok ()
  | .error e, _ => .error e
  | _, .error e => .error e

/-- The child branch of `enc_server.c` `main` (lines 228–232): `validate`
then `handleOtpComm`.  On a tag mismatch the worker exits with code 2
before receiving or sending any message; otherwise it receives text and
key, encrypts, and sends the result. -/
def serverSession (clientTag : String) (text key : List Int) :
    Except ℕ (List Int) :=
  match validateServer "enc" clientTag with
  | .error e => .error e
  | .ok _ => .ok (transform text key .encrypt)

/-- Claim C5 counterexample: an `enc`-tagged server paired with a
`dec`-tagged client FAILS the handshake (exit code 2), while an
`enc`-tagged server paired with an `enc`-tagged peer COMPLETES it — the
opposite of the claim on both counts. -/
theorem spec_c5_cross_pair_fails :
    handshake "enc" "dec" = .error 2 ∧ handshake "enc" "enc" = .ok () :=
  ⟨rfl, rfl⟩

/-- Claim C5 (amended): the handshake completes exactly when the two
peers carry the SAME service tag; with differing tags (such as an
`enc`-tagged server and a `dec`-tagged client) it fails with exit code 2,
and the server worker then exits without exchanging any message. -/
theorem spec_c5_handshake_same_tag (serverTag clientTag : String)
    (text key : List Int) :
    handshake serverTag clientTag
      = (if clientTag = serverTag then .ok () else .error 2) ∧
    serverSession clientTag text key
      = (if clientTag = "enc" then .ok (transform text key .encrypt)
         else .error 2) := by
  constructor
  · by_cases hEq : clientTag = serverTag
    · subst hEq
      simp [handshake, validateServer, validateClient]
    · have hEq' : ¬ serverTag = clientTag := fun hs => hEq hs.symm
      simp [handshake, validateServer, validateClient, hEq, hEq']
  · by_cases hEq : clientTag = "enc"
    · subst hEq
      simp [serverSession, validateServer]
    · simp [serverSession, validateServer, hEq]

/-! ### File reading (`dec_client.c` `stringFromFile`) -/

/-- Failure modes of `stringFromFile` (`dec_client.c` lines 159–186). -/
inductive FileError
  | openFail
  | allocFail
  | badChar (b : Int)
deriving DecidableEq

/-- `stringFromFile` lines 174–182: read the bytes one at a time with
`fgetc`, rejecting at the first byte with
`(c < 'A' || c > 'Z') && c != ' '`. -/
def readChars : List Int → Except FileError (List Int)
  | [] => .ok []
  | c :: cs =>
    if isAlphaByte c then (readChars cs).map (c :: ·)
    else .error (.badChar c)

/-- `stringFromFile` (lines 159–186): `none` models an unopenable path
(line 161, `error(0, ...)`); otherwise `len = ftell(file) - 1` (line 165)
drops the final byte of the file unconditionally, and only the first
`len` bytes are ever read and validated.  On an empty file the `size_t`
subtraction wraps around, so the enormous `malloc(len + 1)` at line 168
fails, modelled as `allocFail`. -/
def stringFromFile : Option (List Int) → Except FileError (List Int)
  | none => .error .openFail
  | some contents =>
    if contents.length = 0 then .error .allocFail
    else readChars (contents.take (contents.length - 1))

theorem readChars_ok {l : List Int} (hl : ∀ b ∈ l, isAlphaByte b) :
    readChars l = .ok l := by
  induction l with
  | nil => rfl
  | cons c cs ih =>
    have hc : isAlphaByte c := hl c (by simp)
    have hcs : readChars cs = .ok cs := ih fun b hb => hl b (by simp [hb])
    simp [readChars, hc, hcs, Except.map]

theorem readChars_first_bad {l : List Int} (hl : ∀ b ∈ l, isAlphaByte b)
    {bad : Int} (hbad : ¬ isAlphaByte bad) (rest : List Int) :
    readChars (l ++ bad :: rest) = .error (.badChar bad) := by
  induction l with
  | nil => simp [readChars, hbad]
  | cons c cs ih =>
    have hc : isAlphaByte c := hl c (by simp)
    have hcs := ih fun b hb => hl b (by simp [hb])
    simp [readChars, hc, hcs, Except.map]

/-- Claim C8 counterexample: on the file contents `"ABC"` with no
trailing newline the reader silently drops the final content byte, and on
`"A?"` the invalid final byte `'?'` (code 63) is never inspected — the
call succeeds instead of failing. -/
theorem spec_c8_last_byte_dropped :
    stringFromFile (some [65, 66, 67]) = .ok [65, 66] ∧
    stringFromFile (some [65, 63]) = .ok [65] :=
  ⟨rfl, rfl⟩

/-- Claim C8 (amended): the reader returns the file's first `size − 1`
bytes — which strips the trailing newline when one is present, but
truncates the final content byte when there is none — and fails
identifying the offending byte when a byte outside the alphabet occurs
among those first `size − 1` bytes; the file's final byte is never
validated. -/
theorem spec_c8_reader (l rest : List Int) (bad : Int)
    (hl : ∀ b ∈ l, isAlphaByte b) (hbad : ¬ isAlphaByte bad) (hne : l ≠ []) :
    stringFromFile (some (l ++ [10])) = .ok l ∧
    stringFromFile (some l) = .ok l.dropLast ∧
    stringFromFile (some ((l ++ bad :: rest) ++ [10]))
      = .error (.badChar bad) := by
  refine ⟨?_, ?_, ?_⟩
  · have hlen : (l ++ [10]).length = l.length + 1 := by simp
    simp only [stringFromFile, hlen]
    rw [if_neg (by omega)]
    have htake : (l ++ [10]).take (l.length + 1 - 1) = l :=
      List.take_left' (by omega)
    rw [htake, readChars_ok hl]
  · have hlen : l.length ≠ 0 := fun h0 => hne (List.eq_nil_of_length_eq_zero h0)
    simp only [stringFromFile]
    rw [if_neg hlen]
    have htake : l.take (l.length - 1) = l.dropLast := by
      rw [List.dropLast_eq_take]
    rw [htake]
    exact readChars_ok fun b hb => hl b (List.dropLast_subset l hb)
  · have hlen : ((l ++ bad :: rest) ++ [10]).length
        = (l ++ bad :: rest).length + 1 := by
      rw [List.length_append, List.length_singleton]
    simp only [stringFromFile, hlen]
    rw [if_neg (by omega)]
    have htake : ((l ++ bad :: rest) ++ [10]).take ((l ++ bad :: rest).length + 1 - 1)
        = l ++ bad :: rest :=
      List.take_left' (by omega)
    rw [htake]
    exact readChars_first_bad hl hbad rest

/-- Claim C8 witness: the amended reader contract at the concrete files
`"HI\n"`, `"HI"` and `"HI?A\n"`. -/
theorem spec_c8_reader_witness :
    stringFromFile (some ([72, 73] ++ [10])) = .ok [72, 73] ∧
    stringFromFile (some [72, 73]) = .ok ([72, 73] : List Int).dropLast ∧
    stringFromFile (some (([72, 73] ++ 63 :: [65]) ++ [10]))
      = .error (.badChar 63) :=
  spec_c8_reader [72, 73] [65] 63 (by decide) (by decide) (by decide)

/-! ### `dec_client.c` `main` -/

/-- `dec_client.c` `main` (lines 199–231) up to its first network
operation, with the exit codes the code actually passes to `error`:
`argc < 4` → `error(0, "USAGE...")` (line 202); an unopenable file, an
allocation failure or an invalid byte → `error(0, ...)` inside
`stringFromFile` (lines 162, 171, 179); `strlen(text) > strlen(key)` →
`error(0, "Key shorter than text")` (line 208).  `ok` carries the text
and key that the client goes on to send. -/
def decClientPrelude (argc : ℕ) (textFile keyFile : Option (List Int)) :
    Except ℕ (List Int × List Int) :=
  if argc < 4 then .error 0
  else
    match stringFromFile textFile with
    | .error _ => .error 0
    | .ok text =>
      match stringFromFile keyFile with
      | .error _ => .error 0
      | .ok key =>
        if key.length < text.length then .error 0
        else .ok (text, key)

/-- Claim C6: the client's usage, unopenable-file and key-shorter-than-
text failures exit with status 0 — not status 1 as claimed — evaluated at
a missing-argument invocation, an unopenable text file, and a 10-byte
text with a 5-byte key. -/
theorem spec_c6_client_error_exit_zero :
    decClientPrelude 1 none none = .error 0 ∧
    decClientPrelude 4 none (some [65, 10]) = .error 0 ∧
    decClientPrelude 4 (some (List.replicate 10 65 ++ [10]))
        (some (List.replicate 5 65 ++ [10])) = .error 0 :=
  ⟨rfl, rfl, rfl⟩

/-- Externally visible steps of `dec_client.c` `main` after the two input
files have been read (lines 204–231). -/
inductive ClientAction
  | openSocket
  | resolveHost
  | connectServer
  | sendTag
  | recvTag
  | sendMsg
  | recvMsg
  | printResult
  | closeSock
  | exitFatal (code : ℕ)
deriving DecidableEq

/-- Order of operations in `dec_client.c` `main` once `text` and `key`
have been read (lines 205–206): the length comparison of lines 207–208
runs before `socket()` (line 211), `gethostbyname` (line 217 via
`setupAddressStruct`), `connect()` (line 220), `validate` (line 224) and
the message exchange (lines 225–227); when the key is shorter,
`error(0, "Key shorter than text")` terminates the process at line 208.
The network steps are shown for the happy transport path. -/
def clientActions (text key : List Int) : List ClientAction :=
  if text.length > key.length then [.exitFatal 0]
  else [.openSocket, .resolveHost, .connectServer, .sendTag, .recvTag,
        .sendMsg, .sendMsg, .recvMsg, .printResult, .closeSock]

/-- Network I/O: socket creation, name resolution, connection and every
socket send or receive. -/
def isNetworkAction : ClientAction → Bool
  | .openSocket => true
  | .resolveHost => true
  | .connectServer => true
  | .sendTag => true
  | .recvTag => true
  | .sendMsg => true
  | .recvMsg => true
  | _ => false

/-- Claim C7: with a key strictly shorter than the text, the client run
ends in a fatal error before any network step — its action trace is
exactly the fatal exit and contains no network I/O whatsoever. -/
theorem spec_c7_key_short_no_network (text key : List Int)
    (h : key.length < text.length) :
    clientActions text key = [.exitFatal 0] ∧
    ((clientActions text key).all fun a => !isNetworkAction a) = true := by
  have hgt : text.length > key.length := h
  constructor
  · simp [clientActions, hgt]
  · simp [clientActions, hgt, isNetworkAction]

/-- Claim C7 witness: a 10-byte text against a 5-byte key. -/
theorem spec_c7_key_short_no_network_witness :
    clientActions (List.replicate 10 65) (List.replicate 5 65)
      = [ClientAction.exitFatal 0] ∧
    ((clientActions (List.replicate 10 65) (List.replicate 5 65)).all
        fun a => !isNetworkAction a) = true :=
  spec_c7_key_short_no_network (List.replicate 10 65) (List.replicate 5 65)
    (by decide)

/-- Claim C1: for every text and key drawn from the 27-symbol alphabet with
`len(K) ≥ len(T)`, decrypting the encryption of `T` under `K` at the same
positions yields `T` exactly. -/
theorem spec_c1_roundtrip (text key : List Int)
    (ht : ∀ b ∈ text, isAlphaByte b) (hk : ∀ b ∈ key, isAlphaByte b)
    (hlen : text.length ≤ key.length) :
    transform (transform text key .encrypt) key .decrypt = text := by
  apply List.ext_getElem
  · rw [transform_length, transform_length]
  · intro i h1 h2
    have hi : i < text.length := h2
    rw [← List.getD_eq_getElem _ _ h1, ← List.getD_eq_getElem _ _ h2]
    rw [transform_getD _ key .decrypt (by rw [transform_length]; exact hi) (by omega)]
    rw [transform_getD text key .encrypt hi (by omega)]
    simp only [transformByte]
    exact decByte_encByte (ht _ (getD_mem hi)) (hk _ (getD_mem (by omega)))

/-- Claim C1 witness: the round trip at a concrete text and key. -/
theorem spec_c1_roundtrip_witness :
    transform (transform (bytes "HELLO THERE") (bytes "XMCKL QWROP") .encrypt)
        (bytes "XMCKL QWROP") .decrypt
      = bytes "HELLO THERE" :=
  spec_c1_roundtrip (bytes "HELLO THERE") (bytes "XMCKL QWROP")
    (by decide) (by decide) (by decide)

/-- Claim C9: for valid text and key and either direction, every output
symbol belongs to the 27-symbol alphabet and the output length equals the
text length. -/
theorem spec_c9_closure_length (text key : List Int) (d : Dir)
    (ht : ∀ b ∈ text, isAlphaByte b) (hk : ∀ b ∈ key, isAlphaByte b)
    (hlen : text.length ≤ key.length) :
    (∀ b ∈ transform text key d, isAlphaByte b) ∧
    (transform text key d).length = text.length := by
  refine ⟨?_, transform_length ..⟩
  intro b hb
  rw [List.mem_iff_getElem] at hb
  obtain ⟨i, hi, rfl⟩ := hb
  have hi' : i < text.length := by rw [transform_length] at hi; exact hi
  rw [← List.getD_eq_getElem _ _ hi, transform_getD text key d hi' (by omega)]
  have hta : isAlphaByte (text.getD i 0) := ht _ (getD_mem hi')
  have hka : isAlphaByte (key.getD i 0) := hk _ (getD_mem (by omega))
  cases d
  · exact encByte_alpha hta hka
  · exact decByte_alpha hta hka

/-- Claim C9 witness: closure and length preservation at a concrete
text, key and direction. -/
theorem spec_c9_closure_length_witness :
    (∀ b ∈ transform (bytes "HI U") (bytes "ZAB Q") .decrypt, isAlphaByte b) ∧
    (transform (bytes "HI U") (bytes "ZAB Q") .decrypt).length
      = (bytes "HI U").length :=
  spec_c9_closure_length (bytes "HI U") (bytes "ZAB Q") .decrypt
    (by decide) (by decide) (by decide)

/-- Two server outputs that differ only in the key byte read differ as
bytes, for every text byte, in or out of the alphabet. -/
theorem encByte_key_sensitive (t : Int) : encByte t 65 ≠ encByte t 66 := by
  have h65 : rankOf (65 : Int) = 0 := by norm_num [rankOf]
  have h66 : rankOf (66 : Int) = 1 := by norm_num [rankOf]
  unfold encByte
  rw [h65, h66]
  have e1 := Int.tdiv_add_tmod (rankOf t + 0) 27
  have e2 := Int.tdiv_add_tmod (rankOf t + 1) 27
  unfold byteOfRank
  intro hEq
  split at hEq <;> split at hEq <;> omega

theorem cStrMem_terminator (key : List Int) (junk : ℕ → Int) :
    cStrMem key junk key.length = 0 := by
  simp [cStrMem]

theorem cStrMem_past_terminator (key : List Int) (junk : ℕ → Int) :
    cStrMem key junk (key.length + 1) = junk 0 := by
  simp [cStrMem]

/-- Claim C10: the `handleOtpComm` loop validates nothing — it indexes the
key memory at every `i < strlen(text)`; with a key shorter than the text it
computes the output at position `strlen(key)` from the NUL terminator, a
byte past the end of the key string, and with a still longer text the
result depends on whatever bytes sit past the key's allocation. -/
theorem spec_c10_no_validation (text key : List Int) (junk : ℕ → Int)
    (h : key.length < text.length) :
    (handleOtpLoop text (cStrMem key junk) .encrypt).length = text.length ∧
    (handleOtpLoop text (cStrMem key junk) .encrypt).getD key.length 0
      = encByte (text.getD key.length 0) (cStrMem key junk key.length) ∧
    cStrMem key junk key.length = 0 ∧
    handleOtpLoop (66 :: text) (cStrMem key fun _ => 65) .encrypt
      ≠ handleOtpLoop (66 :: text) (cStrMem key fun _ => 66) .encrypt := by
  refine ⟨handleOtpLoop_length .., ?_, cStrMem_terminator key junk, ?_⟩
  · rw [handleOtpLoop_getD text _ .encrypt h]
    rfl
  · intro hEq
    have hj : key.length + 1 < (66 :: text).length := by
      simp only [List.length_cons]; omega
    have hgd := congrArg (fun l => l.getD (key.length + 1) 0) hEq
    simp only at hgd
    rw [handleOtpLoop_getD _ _ _ hj, handleOtpLoop_getD _ _ _ hj] at hgd
    rw [cStrMem_past_terminator, cStrMem_past_terminator] at hgd
    simp only [transformByte] at hgd
    exact encByte_key_sensitive _ hgd

/-- Claim C10 witness: the out-of-bounds read at concrete inputs — text
`"BB"`, key `"A"`. -/
theorem spec_c10_no_validation_witness :
    (handleOtpLoop [66, 66] (cStrMem [65] fun _ => 0) Dir.encrypt).length
      = ([66, 66] : List Int).length ∧
    (handleOtpLoop [66, 66] (cStrMem [65] fun _ => 0) Dir.encrypt).getD
        ([65] : List Int).length 0
      = encByte (([66, 66] : List Int).getD ([65] : List Int).length 0)
          (cStrMem [65] (fun _ => 0) ([65] : List Int).length) ∧
    cStrMem [65] (fun _ => 0) ([65] : List Int).length = 0 ∧
    handleOtpLoop (66 :: [66, 66]) (cStrMem [65] fun _ => 65) Dir.encrypt
      ≠ handleOtpLoop (66 :: [66, 66]) (cStrMem [65] fun _ => 66) Dir.encrypt :=
  spec_c10_no_validation [66, 66] [65] (fun _ => 0) (by decide)

end OTP
